import Mathlib

/-!
Verification development for the 2DSceneRelighting swap-network models
(`src/models/swapModels.py`).

The PyTorch modules are shallowly embedded:

* shapes of 4-D tensors `[N, C, H, W]` are modelled by the structure `Shape`,
  and every `nn.Conv2d(inC, outC, k, stride=s, padding=p)` becomes the
  shape transformer `conv2dShape` (`BatchNorm2d` / `PReLU` / `Softplus` /
  `Sigmoid` preserve shapes and are absorbed into the convolution they follow);
* the skip-connection stack is an explicit `List`, pushed at the end during
  encoding and popped from the end (`popStack`) during decoding, exactly as
  Python `list.append` / `list.pop`;
* the decoder's learned blocks are opaque `α → Option α` functions; the
  concrete channel-checking instantiation maps a tensor to its channel count
  and fails when the count differs from the construction-time count, which is
  how `torch.nn.Conv2d` fails at forward time on a channel mismatch;
* `EMPTY_TENSOR` (the placeholder for a disabled skip connection) is a
  zero-channel tensor: concatenating it along the channel axis is a no-op.
-/

/-- Shape `[n, c, h, w]` of a 4-D tensor. -/
structure Shape where
  n : Nat
  c : Nat
  h : Nat
  w : Nat
deriving DecidableEq

/-- Output spatial extent of `nn.Conv2d` with kernel `k`, stride `s`,
padding `p` on an input extent `d` : `(d + 2p - k) / s + 1`. -/
def conv2dOutDim (d k s p : Nat) : Nat :=
  (d + 2 * p - k) / s + 1

/-- Shape semantics of `nn.Conv2d(inC, outC, k, stride := s, padding := p)`:
fails if the channel count does not match or the padded input is smaller
than the kernel, otherwise maps spatial extents through `conv2dOutDim`. -/
def conv2dShape (inC outC k s p : Nat) (x : Shape) : Option Shape :=
  if x.c = inC ∧ k ≤ x.h + 2 * p ∧ k ≤ x.w + 2 * p then
    some ⟨x.n, outC, conv2dOutDim x.h k s p, conv2dOutDim x.w k s p⟩
  else
    none

/-- Shape semantics of `torch.cat((a, b), dim=1)`: channel counts add,
all other dimensions must agree. -/
def catChannels (a b : Shape) : Option Shape :=
  if a.n = b.n ∧ a.h = b.h ∧ a.w = b.w then
    some ⟨a.n, a.c + b.c, a.h, a.w⟩
  else
    none

/-- `ImageEncoding.forward` at shape level: `conv1` maps the image to
`enc_channels - in_channels = 29` channels, the image is concatenated back
(32 channels), that tensor is pushed as the only skip connection, and
`conv2` downsamples `32 → 64` channels at stride 2. -/
def imageEncodingShape (x : Shape) : Option (Shape × List Shape) := do
  let y ← conv2dShape 3 29 7 1 3 x
  let enc ← catChannels y x
  let out ← conv2dShape 32 64 3 2 1 enc
  pure (out, [enc])

/-- `EncDoubleConv.forward` at shape level: pushes its input, applies the
same-resolution `conv1`, pushes the result, then downsamples with `conv2`. -/
def encDoubleConvShape (inC outC : Nat) (x : Shape) : Option (Shape × List Shape) := do
  let y ← conv2dShape inC inC 3 1 1 x
  let z ← conv2dShape inC outC 3 2 1 y
  pure (z, [x, y])

/-- The chain of double-convolution stages built by
`Encoder._build_encoder_convolutions_block`: stage `i` is
`EncDoubleConv(64 * 2^i, 64 * 2^(i+1))`, applied in order. -/
def encChainShape : Nat → Nat → Shape → Option (Shape × List Shape)
  | _, 0, x => some (x, [])
  | i, m + 1, x => do
    let (y, s) ← encDoubleConvShape (64 * 2 ^ i) (64 * 2 ^ (i + 1)) x
    let (z, t) ← encChainShape (i + 1) m y
    pure (z, s ++ t)

/-- The loop of `EncBottleneckConv.forward` at shape level: `k` iterations of
the shared same-resolution `512 → 512` convolution, pushing the current
tensor before each application. -/
def encBottleneckShapeAux (inC : Nat) : Nat → Shape → Option (Shape × List Shape)
  | 0, x => some (x, [])
  | k + 1, x => do
    let y ← conv2dShape inC inC 3 1 1 x
    let (z, s) ← encBottleneckShapeAux inC k y
    pure (z, x :: s)

/-- `EncBottleneckConv.forward` at shape level: the module list holds
`depth - 1` references to the single convolution. -/
def encBottleneckShape (inC depth : Nat) (x : Shape) : Option (Shape × List Shape) :=
  encBottleneckShapeAux inC (depth - 1) x

/-- `Encoder.forward` at shape level: image encoding, then `nDoubleConv`
double-convolution stages, then the bottleneck; the skip lists of the three
parts are concatenated in production order. -/
def encoderShape (nDoubleConv depth : Nat) (x : Shape) : Option (Shape × List Shape) := do
  let (x1, s1) ← imageEncodingShape x
  let (x2, s2) ← encChainShape 0 nDoubleConv x1
  let (x3, s3) ← encBottleneckShape 512 depth x2
  pure (x3, s1 ++ s2 ++ s3)

/-- The latent (bottleneck output) shape of `Encoder.forward`. -/
def encLatentShape (nDoubleConv depth : Nat) (x : Shape) : Option Shape :=
  (encoderShape nDoubleConv depth x).map Prod.fst

/-- The skip-connection shapes pushed by `Encoder.forward` (empty list if the
forward pass fails). -/
def encoderSkipShapes (nDoubleConv depth : Nat) (x : Shape) : List Shape :=
  ((encoderShape nDoubleConv depth x).map Prod.snd).getD []

/-! ## Skip stack and generic decoder skeleton -/

/-- Python `list.pop()`: removes and returns the last element; fails on an
empty list. -/
def popStack {α : Type} (st : List α) : Option (α × List α) :=
  match st.getLast? with
  | none => none
  | some a => some (a, st.dropLast)

/-- The uniform "pop a skip connection, concatenate, apply the block" loop:
every skip-consuming layer of the decoder performs one such step
(`x = conv(channel_concat(x, skip_connections.pop()))`). -/
def convsLoop {α : Type} : List (α → Option α) → (α → α → α) → α → List α →
    Option (α × List α)
  | [], _, x, st => some (x, st)
  | f :: fs, cat, x, st => do
    let (s, st1) ← popStack st
    let y ← f (cat x s)
    convsLoop fs cat y st1

/-- The blocks of one decoder, with learned layers as opaque
`α → Option α` functions and channel concatenation as `cat`.
`bnEncode` is the bottleneck's `encode` block (consumes no skip connection);
`bnInitial`, `bnConvs`, `bnOut` are the bottleneck's skip-consuming layers;
`dcs` are the `(conv1, conv2)` pairs of the `DecDoubleConv` stages; `outBlk`
is the final `Output` block. -/
structure DecBlocks (α : Type) where
  bnEncode : α → Option α
  bnInitial : α → Option α
  bnConvs : List (α → Option α)
  bnOut : α → Option α
  dcs : List ((α → Option α) × (α → Option α))
  outBlk : α → Option α
  cat : α → α → α

/-- `DecBottleneckConv.forward`: encode, then pop for `initial_conv`, pop
once per entry of `convs`, pop for `out_conv`. -/
def decBottleneckForwardG {α : Type} (B : DecBlocks α) (x : α) (st : List α) :
    Option (α × List α) := do
  let x1 ← B.bnEncode x
  let (s, st1) ← popStack st
  let x2 ← B.bnInitial (B.cat x1 s)
  let (x3, st2) ← convsLoop B.bnConvs B.cat x2 st1
  let (t, st3) ← popStack st2
  let x4 ← B.bnOut (B.cat x3 t)
  pure (x4, st3)

/-- `DecDoubleConv.forward`: two pop-concat-conv steps. -/
def decDoubleConvForwardG {α : Type} (cat : α → α → α)
    (c1 c2 : α → Option α) (x : α) (st : List α) : Option (α × List α) := do
  let (s, st1) ← popStack st
  let y ← c1 (cat x s)
  let (t, st2) ← popStack st1
  let z ← c2 (cat y t)
  pure (z, st2)

/-- The loop over the decoder's double-convolution stages in
`Decoder.forward`. -/
def dcFold {α : Type} (cat : α → α → α) :
    List ((α → Option α) × (α → Option α)) → α → List α → Option (α × List α)
  | [], x, st => some (x, st)
  | p :: ps, x, st => do
    let (y, st1) ← decDoubleConvForwardG cat p.1 p.2 x st
    dcFold cat ps y st1

/-- `Decoder.forward`: bottleneck, then the double-convolution stages, then
one final pop consumed by the `Output` block. -/
def decoderForwardG {α : Type} (B : DecBlocks α) (x : α) (st : List α) :
    Option (α × List α) := do
  let (y, st1) ← decBottleneckForwardG B x st
  let (z, st2) ← dcFold B.cat B.dcs y st1
  let (s, st3) ← popStack st2
  let r ← B.outBlk (B.cat z s)
  pure (r, st3)

/-- All skip-consuming layer blocks of a decoder, in execution order. -/
def flattenBlocks {α : Type} (B : DecBlocks α) : List (α → Option α) :=
  B.bnInitial :: (B.bnConvs ++ [B.bnOut] ++
    B.dcs.flatMap (fun p => [p.1, p.2]) ++ [B.outBlk])

/-! ## Channel-count instantiation of the decoder -/

/-- `SkipConnectionReceiver.channels_in_layer`: the un-augmented channel
count if the layer's number is in the (already start-shifted) disabled set,
otherwise augmented by the skip connection's channel count. -/
def channelsInLayer (disabled : List Int) (layerNumber : Int)
    (layerChannels skipChannels : Nat) : Nat :=
  if layerNumber ∈ disabled then layerChannels
  else layerChannels + skipChannels

/-- A convolution block reduced to its construction-time channel counts. -/
structure ConvB where
  inC : Nat
  outC : Nat
deriving DecidableEq

/-- Forward semantics of a convolution block on channel counts: fails
unless the input channel count matches the construction-time count. -/
def applyConv (b : ConvB) (c : Nat) : Option Nat :=
  if c = b.inC then some b.outC else none

/-- Construction-time channel data of one decoder. -/
structure DecoderChan where
  bnEncode : ConvB
  bnInitial : ConvB
  bnConvs : List ConvB
  bnOut : ConvB
  dcs : List (ConvB × ConvB)
  outBlk : ConvB
deriving DecidableEq

/-- `DecBottleneckConv.__init__` channel bookkeeping (`in_channels = inC`,
`depth`): `encode` halves the channels; `initial_conv` is layer 0;
`convs[i]` is layer `i + 1` for `i < depth - 3`; `out_conv` is layer
`depth - 2`.  The receiver stores `disabled - start` with `start = 0`. -/
def mkDecBottleneckChan (inC depth : Nat) (disabled : List Int) : DecoderChan :=
  let stored := disabled.map (fun j => j - 0)
  let half := inC / 2
  { bnEncode := ⟨inC, half⟩
    bnInitial := ⟨channelsInLayer stored 0 half inC, inC⟩
    bnConvs := (List.range (depth - 3)).map
      (fun i => ⟨channelsInLayer stored ((i : Int) + 1) inC inC, inC⟩)
    bnOut := ⟨channelsInLayer stored ((depth : Int) - 2) inC inC, half⟩
    dcs := []
    outBlk := ⟨0, 0⟩ }

/-- `DecDoubleConv.__init__` channel bookkeeping: the receiver stores
`disabled - start`; `conv1` is its layer 0, `conv2` its layer 1 (`conv2`
also upsamples, which is invisible to channel counts). -/
def mkDecDoubleConvChan (inC outC : Nat) (disabled : List Int) (start : Int) :
    ConvB × ConvB :=
  let stored := disabled.map (fun j => j - start)
  (⟨channelsInLayer stored 0 inC inC, inC⟩,
   ⟨channelsInLayer stored 1 inC inC, outC⟩)

/-- `Output.__init__` channel bookkeeping (`in_channels = 32`,
`out_channels = 3`): a single skip-consuming layer, its layer 0. -/
def mkOutputChan (disabled : List Int) (start : Int) : ConvB :=
  let stored := disabled.map (fun j => j - start)
  ⟨channelsInLayer stored 0 32 32, 3⟩

/-- `Decoder.__init__` channel bookkeeping: bottleneck on 512 channels with
`start = 0`; double-convolution stage `i` on `256 / 2^i → 256 / 2^(i+1)`
channels with `start = (depth - 1) + 2 i`; output stage with
`start = (depth - 1) + 2 nDoubleConv`. -/
def mkDecoderChan (nDoubleConv depth : Nat) (disabled : List Int) : DecoderChan :=
  let bn := mkDecBottleneckChan 512 depth disabled
  let dcStart : Int := (depth : Int) - 1
  { bn with
    dcs := (List.range nDoubleConv).map
      (fun (i : Nat) => mkDecDoubleConvChan (256 / 2 ^ i) (256 / 2 ^ (i + 1))
        disabled (dcStart + 2 * (i : Int)))
    outBlk := mkOutputChan disabled (dcStart + 2 * (nDoubleConv : Int)) }

/-- The channel-level blocks of a decoder. -/
def mkDecBlocksChan (nDoubleConv depth : Nat) (disabled : List Int) :
    DecBlocks Nat :=
  let D := mkDecoderChan nDoubleConv depth disabled
  { bnEncode := applyConv D.bnEncode
    bnInitial := applyConv D.bnInitial
    bnConvs := D.bnConvs.map applyConv
    bnOut := applyConv D.bnOut
    dcs := D.dcs.map (fun p => (applyConv p.1, applyConv p.2))
    outBlk := applyConv D.outBlk
    cat := (· + ·) }

/-- `Decoder.forward` on channel counts. -/
def decoderForwardChan (nDoubleConv depth : Nat) (disabled : List Int)
    (c : Nat) (st : List Nat) : Option (Nat × List Nat) :=
  decoderForwardG (mkDecBlocksChan nDoubleConv depth disabled) c st

/-- The construction-time input channel counts of the skip-consuming decoder
layers, in execution order. -/
def decInChansList (nDoubleConv depth : Nat) (disabled : List Int) : List Nat :=
  let D := mkDecoderChan nDoubleConv depth disabled
  D.bnInitial.inC :: (D.bnConvs.map ConvB.inC ++ [D.bnOut.inC] ++
    D.dcs.flatMap (fun p => [p.1.inC, p.2.inC]) ++ [D.outBlk.inC])

/-! ## Tag and value instantiations of the decoder -/

/-- Decoder blocks that ignore tensor contents and only record, in `x`, the
list of stack entries popped so far (each stack entry is a one-element tag
list; `cat` is list append; every learned block is the identity).  Used to
reason about the pop discipline alone. -/
def mkDecBlocksTag (nDoubleConv depth : Nat) : DecBlocks (List Nat) :=
  { bnEncode := some
    bnInitial := some
    bnConvs := List.replicate (depth - 3) some
    bnOut := some
    dcs := List.replicate nDoubleConv (some, some)
    outBlk := some
    cat := (· ++ ·) }

/-- `Decoder.forward` in the tag instantiation, on the stack of singleton
tags `[[0], [1], …, [count - 1]]` (position `i` of the stack carries tag
`i`); the first component of the result is the list of tags in pop order. -/
def decoderTagRun (nDoubleConv depth count : Nat) :
    Option (List Nat × List (List Nat)) :=
  decoderForwardG (mkDecBlocksTag nDoubleConv depth) []
    ((List.range count).map (fun i => [i]))

/-- `DecBottleneckConv.forward` alone in the tag instantiation. -/
def decBottleneckTagRun (depth count : Nat) :
    Option (List Nat × List (List Nat)) :=
  decBottleneckForwardG (mkDecBlocksTag 0 depth) []
    ((List.range count).map (fun i => [i]))

/-- A value-level tensor: the flattened list of its entries (one entry per
channel; the spatial extent is collapsed, which suffices because every
block below is realizable by a convolution acting per spatial position). -/
def sumCollapse (xs : List Int) : Option (List Int) :=
  some [xs.sum]

/-- Decoder blocks in a concrete value instantiation: every learned block is
a convolution with all-one weights collapsing its input to one channel
(realizable by `Conv2d` with unit weights, `BatchNorm2d` in its identity
configuration and `PReLU` with slope 1); `cat` is concatenation along the
channel axis. -/
def mkDecBlocksVal (nDoubleConv depth : Nat) : DecBlocks (List Int) :=
  { bnEncode := sumCollapse
    bnInitial := sumCollapse
    bnConvs := List.replicate (depth - 3) sumCollapse
    bnOut := sumCollapse
    dcs := List.replicate nDoubleConv (sumCollapse, sumCollapse)
    outBlk := sumCollapse
    cat := (· ++ ·) }

/-- `Decoder.forward` in the value instantiation. -/
def decoderForwardVal (nDoubleConv depth : Nat) (x : List Int)
    (st : List (List Int)) : Option (List Int × List (List Int)) :=
  decoderForwardG (mkDecBlocksVal nDoubleConv depth) x st

/-! ## Encoder-side skip bookkeeping -/

/-- `Encoder.get_skip_connections`: `for i in disabled: skips[i] = EMPTY`.
Positions named by the disabled index list are overwritten with the
placeholder `empty`; length and the order of all other entries are kept. -/
def applyDisableL {α : Type} (empty : α) (disabled : List Nat)
    (skips : List α) : List α :=
  disabled.foldl (fun s i => s.set i empty) skips

/-- Number of skip connections pushed by one successful `Encoder.forward`
pass: one by `ImageEncoding`, two per double-convolution stage,
`depth - 1` by the bottleneck. -/
def encPushCount (nDoubleConv depth : Nat) : Nat :=
  1 + 2 * nDoubleConv + (depth - 1)

/-- Number of pops performed by a complete `Decoder.forward` pass:
`1 + (depth - 3) + 1` in the bottleneck (`initial_conv`, `convs`,
`out_conv`), two per double-convolution stage, one by the output stage. -/
def decPopCount (nDoubleConv depth : Nat) : Nat :=
  (1 + (depth - 3) + 1) + 2 * nDoubleConv + 1

/-- Channel counts of the encoder's skip stack, read off a successful
shape-level forward pass. -/
def encSkipChans (nDoubleConv depth : Nat) (x : Shape) : List Nat :=
  (encoderSkipShapes nDoubleConv depth x).map Shape.c

/-! ## `Encoder` configuration surface -/

/-- The configuration data `Encoder.__init__` stores: the disabled index
list and `n_skip_connections = 1 + n_double_conv * 2 + (bottleneck_depth - 1)`
(computed in unbounded integer arithmetic, as Python does). -/
structure EncoderCfg where
  nDoubleConv : Nat
  bottleneckDepth : Nat
  disabledSkipConnections : List Int
  nSkipConnections : Int
deriving DecidableEq

/-- `Encoder.__init__`. -/
def mkEncoderCfg (nDoubleConv bottleneckDepth : Nat) (disabled : List Int) :
    EncoderCfg :=
  { nDoubleConv := nDoubleConv
    bottleneckDepth := bottleneckDepth
    disabledSkipConnections := disabled
    nSkipConnections :=
      1 + (nDoubleConv : Int) * 2 + ((bottleneckDepth : Int) - 1) }

/-- `Encoder.get_number_of_possible_skip_connections`. -/
def getNumberOfPossibleSkipConnections (e : EncoderCfg) : Int :=
  e.nSkipConnections

/-! ## `EncBottleneckConv`: shared module and forward loop -/

/-- `EncBottleneckConv._build_bottleneck_convolutions`: the Python list
`single_conv * (depth - 1)` holds `depth - 1` references to the one module
`single_conv[0]`, so the built module list is `depth - 1` copies of the same
function. -/
def buildBottleneckConvolutions {α : Type} (singleConv : α → α) (depth : Nat) :
    List (α → α) :=
  List.replicate (depth - 1) singleConv

/-- The loop of `EncBottleneckConv.forward`: pushes the current tensor, then
applies the next module, for every module in the list. -/
def encBottleneckForward {α : Type} : List (α → α) → α → α × List α
  | [], x => (x, [])
  | f :: fs, x =>
    let (out, sk) := encBottleneckForward fs (f x)
    (out, x :: sk)

/-! ## `size_splits` and the channel-split codec -/

/-- `torch.Tensor.narrow(dim, start, length)` along the modelled dimension. -/
def narrowL {α : Type} (xs : List α) (start length : Nat) : List α :=
  (xs.drop start).take length

/-- Base-2 logarithm by structural recursion on a fuel argument, so that
the kernel can evaluate it shallowly. -/
def natLog2Aux : Nat → Nat → Nat
  | 0, _ => 0
  | fuel + 1, n => if n ≤ 1 then 0 else natLog2Aux fuel (n / 2) + 1

/-- `⌊log2 n⌋` (0 for `n ≤ 1`), for every `n < 2^160` — far beyond the
float32 overflow threshold `2^128`, above which the model is meaningless
anyway. -/
def natLog2 (n : Nat) : Nat :=
  natLog2Aux 160 n

/-- Round a nonnegative integer to the nearest value representable in
float32 (round-to-nearest, ties-to-even).  Integers up to `2^24` are exact;
above that the value is rounded to a multiple of `2^(⌊log2 n⌋ - 23)` (the
spacing of float32 values at that magnitude), with ties going to the even
multiple.  Overflow to infinity (beyond `2^128`) is not modelled; it is
unreachable for tensor dimensions. -/
def fp32RoundNat (n : Nat) : Nat :=
  if n ≤ 2 ^ 24 then n
  else
    let k := natLog2 n - 23
    let q := n / 2 ^ k
    let r := n % 2 ^ k
    let half := 2 ^ (k - 1)
    if half < r ∨ (r = half ∧ q % 2 = 1) then (q + 1) * 2 ^ k else q * 2 ^ k

/-- Float32 addition of integer-valued float32 numbers: the exact integer
sum, correctly rounded back to float32.  Every value flowing through
`size_splits` below is a rounded nonnegative integer, so this captures the
float32 accumulation exactly. -/
def fp32Add (a b : Nat) : Nat :=
  fp32RoundNat (a + b)

/-- `size_splits(tensor, split_sizes, dim)` with the tensor reduced to its
list of slices along `dim`.  `torch.Tensor(split_sizes)` is the legacy
float32 constructor, so both the guard and the chunk starts run in float32:

* the guard compares `dim_size` (a Python int, promoted to float32, i.e.
  `fp32RoundNat xs.length`) against `torch.sum` of the float32 sizes,
  modelled as a left-to-right float32 accumulation — and raises
  `KeyError("Sum of split sizes exceeds tensor dim")` exactly when the two
  float32 values differ;
* the starts are `torch.cumsum(torch.Tensor([0] + split_sizes))[:-1]`, the
  float32 partial sums (`List.scanl fp32Add 0`) of the rounded sizes;
* the chunk lengths passed to `narrow` are the original Python ints.

(The accumulation order only matters when some partial sum exceeds `2^24`;
below that every order is exact and agrees with this model.) -/
def size_splits {α : Type} (xs : List α) (splitSizes : List Nat) :
    Except String (List (List α)) :=
  if fp32RoundNat xs.length ≠ (splitSizes.map fp32RoundNat).foldl fp32Add 0 then
    Except.error "Sum of split sizes exceeds tensor dim"
  else
    Except.ok
      ((((List.scanl fp32Add 0 (splitSizes.map fp32RoundNat)).dropLast).zip
        splitSizes).map (fun p => narrowL xs p.1 p.2))

/-- `AnOtherSwapNetSplitter.forward` with the latent reduced to its list of
512 channel slices: `light, scene = size_splits(latent, [3, 509], dim=1)`,
returned as `(scene, light)`. -/
def anOtherSwapNetSplit {α : Type} (latent : List α) :
    Except String (List α × List α) := do
  let chunks ← size_splits latent [3, 509]
  match chunks with
  | [light, scene] => Except.ok (scene, light)
  | _ => Except.error "unpack"

/-- `AnOtherSwapNetAssembler.forward`: `torch.cat((light, scene), dim=1)`. -/
def anOtherSwapNetAssemble {α : Type} (scene light : List α) : List α :=
  light ++ scene

/-! ## Orchestrators -/

/-- One `SwapNet.forward` pass, with the encoder, splitter, assembler and
decoder abstracted:

* `latentOf` / `skipsOf` give the latent and the freshly rebuilt skip list of
  one `Encoder.forward` call (the encoder rebinds its stored list at the
  start of every call, so each call's list is a function of that call's
  input alone);
* `applyDisableL empty dis` is `Encoder.get_skip_connections`;
* `split`, `assemble`, `decode` are the pluggable strategy halves and the
  decoder.

The result is the returned 7-tuple, paired with the trace of decoder
invocations `(latent argument, stack argument)` — `SwapNet.forward` contains
exactly one decoder call site. -/
def swapNetForward {I L Sc Li R S : Type}
    (latentOf : I → L) (skipsOf : I → List S) (empty : S) (dis : List Nat)
    (split : L → Sc × Li) (assemble : Sc → Li → L)
    (decode : L → List S → R) (image target groundtruth : I) :
    (R × Li × Li × Li × Sc × Sc × Sc) × List (L × List S) :=
  let imageLatent := latentOf image
  let imageSkipConnections := applyDisableL empty dis (skipsOf image)
  let targetLatent := latentOf target
  let groundtruthLatent := latentOf groundtruth
  let imagePair := split imageLatent
  let targetPair := split targetLatent
  let groundtruthPair := split groundtruthLatent
  let swappedLatent := assemble imagePair.1 targetPair.2
  let relitImage := decode swappedLatent imageSkipConnections
  ((relitImage, imagePair.2, targetPair.2, groundtruthPair.2,
    imagePair.1, targetPair.1, groundtruthPair.1),
   [(swappedLatent, imageSkipConnections)])

/-- One `GroundtruthEnvmapSwapNet.forward` pass: only `image` and `target`
are encoded; the swapped latent is `assemble(None, predicted_target_envmap)`;
decoding uses the image's skip stack; the `groundtruth` argument is unused. -/
def groundtruthEnvmapSwapNetForward {I L Sc Li R S : Type}
    (latentOf : I → L) (skipsOf : I → List S) (empty : S) (dis : List Nat)
    (split : L → Option Sc × Li) (assemble : Option Sc → Li → L)
    (decode : L → List S → R) (image target groundtruth : I) :
    R × Li × Li :=
  let imageLatent := latentOf image
  let imageSkipConnections := applyDisableL empty dis (skipsOf image)
  let predictedImageEnvmap := (split imageLatent).2
  let targetLatent := latentOf target
  let predictedTargetEnvmap := (split targetLatent).2
  let swappedLatent := assemble none predictedTargetEnvmap
  let relitImage := decode swappedLatent imageSkipConnections
  (relitImage, predictedImageEnvmap, predictedTargetEnvmap)

/-! ## Shape lemmas for the encoder -/

/-- A same-resolution convolution (`kernel 3, stride 1, padding 1`)
preserves the spatial extents. -/
theorem convSame_eval (inC outC n c h w : Nat) (hc : c = inC)
    (hh : 1 ≤ h) (hw : 1 ≤ w) :
    conv2dShape inC outC 3 1 1 ⟨n, c, h, w⟩ = some ⟨n, outC, h, w⟩ := by
  unfold conv2dShape conv2dOutDim
  rw [if_pos ⟨hc, by show (3 : Nat) ≤ h + 2 * 1; omega,
      by show (3 : Nat) ≤ w + 2 * 1; omega⟩]
  show some (⟨n, outC, (h + 2 * 1 - 3) / 1 + 1, (w + 2 * 1 - 3) / 1 + 1⟩ : Shape) = _
  have eh : (h + 2 * 1 - 3) / 1 + 1 = h := by omega
  have ew : (w + 2 * 1 - 3) / 1 + 1 = w := by omega
  rw [eh, ew]

/-- A downsampling convolution (`kernel 3, stride 2, padding 1`) maps the
spatial extent `h` to `(h - 1) / 2 + 1`, i.e. `⌈h / 2⌉`. -/
theorem convDown_eval (inC outC n c h w : Nat) (hc : c = inC)
    (hh : 1 ≤ h) (hw : 1 ≤ w) :
    conv2dShape inC outC 3 2 1 ⟨n, c, h, w⟩ =
      some ⟨n, outC, (h - 1) / 2 + 1, (w - 1) / 2 + 1⟩ := by
  unfold conv2dShape conv2dOutDim
  rw [if_pos ⟨hc, by show (3 : Nat) ≤ h + 2 * 1; omega,
      by show (3 : Nat) ≤ w + 2 * 1; omega⟩]
  show some (⟨n, outC, (h + 2 * 1 - 3) / 2 + 1, (w + 2 * 1 - 3) / 2 + 1⟩ : Shape) = _
  have eh : (h + 2 * 1 - 3) / 2 + 1 = (h - 1) / 2 + 1 := by omega
  have ew : (w + 2 * 1 - 3) / 2 + 1 = (w - 1) / 2 + 1 := by omega
  rw [eh, ew]

/-- `ImageEncoding.forward` on a `[n, 3, h, w]` image: pushes the 32-channel
pre-downsample tensor and emits 64 channels at half resolution. -/
theorem imageEncodingShape_eval (n h w : Nat) (hh : 1 ≤ h) (hw : 1 ≤ w) :
    imageEncodingShape ⟨n, 3, h, w⟩ =
      some (⟨n, 64, (h - 1) / 2 + 1, (w - 1) / 2 + 1⟩, [⟨n, 32, h, w⟩]) := by
  have c1 : conv2dShape 3 29 7 1 3 ⟨n, 3, h, w⟩ = some ⟨n, 29, h, w⟩ := by
    unfold conv2dShape conv2dOutDim
    rw [if_pos ⟨rfl, by show (7 : Nat) ≤ h + 2 * 3; omega,
        by show (7 : Nat) ≤ w + 2 * 3; omega⟩]
    show some (⟨n, 29, (h + 2 * 3 - 7) / 1 + 1, (w + 2 * 3 - 7) / 1 + 1⟩ : Shape) = _
    have eh : (h + 2 * 3 - 7) / 1 + 1 = h := by omega
    have ew : (w + 2 * 3 - 7) / 1 + 1 = w := by omega
    rw [eh, ew]
  have c2 : catChannels ⟨n, 29, h, w⟩ ⟨n, 3, h, w⟩ = some ⟨n, 32, h, w⟩ := by
    unfold catChannels
    rw [if_pos ⟨rfl, rfl, rfl⟩]
    rfl
  unfold imageEncodingShape
  rw [c1]
  show (catChannels ⟨n, 29, h, w⟩ ⟨n, 3, h, w⟩).bind _ = _
  rw [c2]
  show (conv2dShape 32 64 3 2 1 ⟨n, 32, h, w⟩).bind _ = _
  rw [convDown_eval 32 64 n 32 h w rfl hh hw]
  rfl

/-- `EncDoubleConv.forward` on a matching input: pushes its input and the
first convolution's output (same shape), then halves the resolution. -/
theorem encDoubleConvShape_eval (inC outC n h w : Nat) (hh : 1 ≤ h) (hw : 1 ≤ w) :
    encDoubleConvShape inC outC ⟨n, inC, h, w⟩ =
      some (⟨n, outC, (h - 1) / 2 + 1, (w - 1) / 2 + 1⟩,
        [⟨n, inC, h, w⟩, ⟨n, inC, h, w⟩]) := by
  unfold encDoubleConvShape
  rw [convSame_eval inC inC n inC h w rfl hh hw]
  show (conv2dShape inC outC 3 2 1 ⟨n, inC, h, w⟩).bind _ = _
  rw [convDown_eval inC outC n inC h w rfl hh hw]
  rfl

/-- The bottleneck loop keeps the `[n, 512, h, w]` shape and pushes `k`
copies of it. -/
theorem encBottleneckShapeAux_eval (k n h w : Nat) (hh : 1 ≤ h) (hw : 1 ≤ w) :
    encBottleneckShapeAux 512 k ⟨n, 512, h, w⟩ =
      some (⟨n, 512, h, w⟩, List.replicate k ⟨n, 512, h, w⟩) := by
  induction k with
  | zero => rfl
  | succ m ih =>
    show (conv2dShape 512 512 3 1 1 ⟨n, 512, h, w⟩).bind _ = _
    rw [convSame_eval 512 512 n 512 h w rfl hh hw]
    show (encBottleneckShapeAux 512 m ⟨n, 512, h, w⟩).bind _ = _
    rw [ih]
    rfl

/-- Stage 2 of the default double-convolution chain (`256 → 512`). -/
theorem encChainShape_stage2_eval (n h w : Nat) (hh : 1 ≤ h) (hw : 1 ≤ w) :
    encChainShape 2 1 ⟨n, 256, h, w⟩ =
      some (⟨n, 512, (h - 1) / 2 + 1, (w - 1) / 2 + 1⟩,
        [⟨n, 256, h, w⟩, ⟨n, 256, h, w⟩]) := by
  show (encDoubleConvShape 256 512 ⟨n, 256, h, w⟩).bind _ = _
  rw [encDoubleConvShape_eval 256 512 n h w hh hw]
  rfl

/-- Stages 1–2 of the default double-convolution chain (`128 → 512`). -/
theorem encChainShape_stage1_eval (n h w : Nat) (hh : 1 ≤ h) (hw : 1 ≤ w) :
    encChainShape 1 2 ⟨n, 128, h, w⟩ =
      some (⟨n, 512, (h + 3) / 4, (w + 3) / 4⟩,
        [⟨n, 128, h, w⟩, ⟨n, 128, h, w⟩,
         ⟨n, 256, (h - 1) / 2 + 1, (w - 1) / 2 + 1⟩,
         ⟨n, 256, (h - 1) / 2 + 1, (w - 1) / 2 + 1⟩]) := by
  show (encDoubleConvShape 128 256 ⟨n, 128, h, w⟩).bind _ = _
  rw [encDoubleConvShape_eval 128 256 n h w hh hw]
  show (encChainShape 2 1 ⟨n, 256, (h - 1) / 2 + 1, (w - 1) / 2 + 1⟩).bind _ = _
  rw [encChainShape_stage2_eval n ((h - 1) / 2 + 1) ((w - 1) / 2 + 1) (by omega) (by omega)]
  have eh : ((h - 1) / 2 + 1 - 1) / 2 + 1 = (h + 3) / 4 := by omega
  have ew : ((w - 1) / 2 + 1 - 1) / 2 + 1 = (w + 3) / 4 := by omega
  rw [eh, ew]
  rfl

/-- The full default double-convolution chain (`64 → 512`, three stages). -/
theorem encChainShape_stage0_eval (n h w : Nat) (hh : 1 ≤ h) (hw : 1 ≤ w) :
    encChainShape 0 3 ⟨n, 64, h, w⟩ =
      some (⟨n, 512, (h + 7) / 8, (w + 7) / 8⟩,
        [⟨n, 64, h, w⟩, ⟨n, 64, h, w⟩,
         ⟨n, 128, (h - 1) / 2 + 1, (w - 1) / 2 + 1⟩,
         ⟨n, 128, (h - 1) / 2 + 1, (w - 1) / 2 + 1⟩,
         ⟨n, 256, (h + 3) / 4, (w + 3) / 4⟩,
         ⟨n, 256, (h + 3) / 4, (w + 3) / 4⟩]) := by
  show (encDoubleConvShape 64 128 ⟨n, 64, h, w⟩).bind _ = _
  rw [encDoubleConvShape_eval 64 128 n h w hh hw]
  show (encChainShape 1 2 ⟨n, 128, (h - 1) / 2 + 1, (w - 1) / 2 + 1⟩).bind _ = _
  rw [encChainShape_stage1_eval n ((h - 1) / 2 + 1) ((w - 1) / 2 + 1) (by omega) (by omega)]
  have e4h : ((h - 1) / 2 + 1 + 3) / 4 = (h + 7) / 8 := by omega
  have e4w : ((w - 1) / 2 + 1 + 3) / 4 = (w + 7) / 8 := by omega
  have e2h : ((h - 1) / 2 + 1 - 1) / 2 + 1 = (h + 3) / 4 := by omega
  have e2w : ((w - 1) / 2 + 1 - 1) / 2 + 1 = (w + 3) / 4 := by omega
  rw [e4h, e4w, e2h, e2w]
  rfl

/-- `Encoder.forward` with the default three double-convolution stages, any
bottleneck depth, on any image `[n, 3, h, w]` with positive spatial extents:
the latent is `[n, 512, ⌈h/16⌉, ⌈w/16⌉]` (four stride-2 stages) and the skip
stack is the seven image-encoding/double-conv tensors followed by
`depth - 1` bottleneck tensors. -/
theorem encoderShape_default_eval (d n h w : Nat) (hh : 1 ≤ h) (hw : 1 ≤ w) :
    encoderShape 3 d ⟨n, 3, h, w⟩ =
      some (⟨n, 512, (h + 15) / 16, (w + 15) / 16⟩,
        [⟨n, 32, h, w⟩,
         ⟨n, 64, (h - 1) / 2 + 1, (w - 1) / 2 + 1⟩,
         ⟨n, 64, (h - 1) / 2 + 1, (w - 1) / 2 + 1⟩,
         ⟨n, 128, (h + 3) / 4, (w + 3) / 4⟩,
         ⟨n, 128, (h + 3) / 4, (w + 3) / 4⟩,
         ⟨n, 256, (h + 7) / 8, (w + 7) / 8⟩,
         ⟨n, 256, (h + 7) / 8, (w + 7) / 8⟩] ++
        List.replicate (d - 1) ⟨n, 512, (h + 15) / 16, (w + 15) / 16⟩) := by
  show (imageEncodingShape ⟨n, 3, h, w⟩).bind _ = _
  rw [imageEncodingShape_eval n h w hh hw]
  show (encChainShape 0 3 ⟨n, 64, (h - 1) / 2 + 1, (w - 1) / 2 + 1⟩).bind _ = _
  rw [encChainShape_stage0_eval n ((h - 1) / 2 + 1) ((w - 1) / 2 + 1) (by omega) (by omega)]
  have g2h : ((h - 1) / 2 + 1 - 1) / 2 + 1 = (h + 3) / 4 := by omega
  have g2w : ((w - 1) / 2 + 1 - 1) / 2 + 1 = (w + 3) / 4 := by omega
  have g4h : ((h - 1) / 2 + 1 + 3) / 4 = (h + 7) / 8 := by omega
  have g4w : ((w - 1) / 2 + 1 + 3) / 4 = (w + 7) / 8 := by omega
  have g8h : ((h - 1) / 2 + 1 + 7) / 8 = (h + 15) / 16 := by omega
  have g8w : ((w - 1) / 2 + 1 + 7) / 8 = (w + 15) / 16 := by omega
  rw [g2h, g2w, g4h, g4w, g8h, g8w]
  show (encBottleneckShapeAux 512 (d - 1) ⟨n, 512, (h + 15) / 16, (w + 15) / 16⟩).bind _ = _
  rw [encBottleneckShapeAux_eval (d - 1) n ((h + 15) / 16) ((w + 15) / 16) (by omega) (by omega)]
  rfl

/-! ## Claim C1 -/

/-- C1 (counterexample): for a `[1, 3, 256, 256]` image and the default
configuration (3 double-conv stages, bottleneck depth 4), `Encoder.forward`
produces a latent of shape `[1, 512, 16, 16]` — that is `[N, 512, H/16,
W/16]` — and not `[1, 512, 8, 8] = [N, 512, H/32, W/32]` as the claim
states. -/
theorem C1_counterexample :
    encLatentShape 3 4 ⟨1, 3, 256, 256⟩ = some ⟨1, 512, 16, 16⟩ ∧
      encLatentShape 3 4 ⟨1, 3, 256, 256⟩ ≠ some ⟨1, 512, 256 / 32, 256 / 32⟩ := by
  constructor
  · rw [show encLatentShape 3 4 ⟨1, 3, 256, 256⟩ =
        (encoderShape 3 4 ⟨1, 3, 256, 256⟩).map Prod.fst from rfl]
    rw [encoderShape_default_eval 4 1 256 256 (by omega) (by omega)]
    rfl
  · rw [show encLatentShape 3 4 ⟨1, 3, 256, 256⟩ =
        (encoderShape 3 4 ⟨1, 3, 256, 256⟩).map Prod.fst from rfl]
    rw [encoderShape_default_eval 4 1 256 256 (by omega) (by omega)]
    decide

/-- C1 (amended): for the default configuration (3 double-conv stages,
bottleneck depth 4), `Encoder.forward` maps every image tensor of shape
`[N, 3, H, W]` with `H, W ≥ 1` to a latent tensor of shape
`[N, 512, ⌈H/16⌉, ⌈W/16⌉]` — four stride-2 stages halve the resolution four
times, so the divisor is 16, not 32. -/
theorem C1_encoder_latent_shape (N H W : Nat) (hH : 1 ≤ H) (hW : 1 ≤ W) :
    encLatentShape 3 4 ⟨N, 3, H, W⟩ =
      some ⟨N, 512, (H + 15) / 16, (W + 15) / 16⟩ := by
  rw [show encLatentShape 3 4 ⟨N, 3, H, W⟩ =
      (encoderShape 3 4 ⟨N, 3, H, W⟩).map Prod.fst from rfl]
  rw [encoderShape_default_eval 4 N H W hH hW]
  rfl

/-- C1 witness: the amended claim applied at a concrete `[2, 3, 256, 256]`
input, where the latent shape is `[2, 512, 16, 16]`. -/
theorem C1_encoder_latent_shape_witness :
    encLatentShape 3 4 ⟨2, 3, 256, 256⟩ = some ⟨2, 512, 16, 16⟩ := by
  have h := C1_encoder_latent_shape 2 256 256 (by decide) (by decide)
  simpa using h

/-! ## Claim C7 -/

/-- C7: for every configuration, `get_number_of_possible_skip_connections`
returns `1 + 2 * n_double_conv + (bottleneck_depth - 1)` (in unbounded
integer arithmetic, matching Python), and the value does not depend on the
disabled index set. -/
theorem C7_possible_skip_connections_count (n d : Nat) (dis dis2 : List Int) :
    getNumberOfPossibleSkipConnections (mkEncoderCfg n d dis) =
      1 + 2 * (n : Int) + ((d : Int) - 1) ∧
    getNumberOfPossibleSkipConnections (mkEncoderCfg n d dis) =
      getNumberOfPossibleSkipConnections (mkEncoderCfg n d dis2) := by
  refine ⟨?_, rfl⟩
  show 1 + (n : Int) * 2 + ((d : Int) - 1) = 1 + 2 * (n : Int) + ((d : Int) - 1)
  ring

/-! ## Claim C10 -/

/-- The bottleneck forward loop on `k` copies of the one shared module `f`
iterates `f` exactly `k` times and pushes the iterates
`x, f x, …, f^[k-1] x` in order. -/
theorem encBottleneckForward_replicate {α : Type} (f : α → α) (k : Nat) (x : α) :
    encBottleneckForward (List.replicate k f) x =
      (f^[k] x, (List.range k).map (fun j => f^[j] x)) := by
  induction k generalizing x with
  | zero => rfl
  | succ m ih =>
    show (let p := encBottleneckForward (List.replicate m f) (f x)
          (p.1, x :: p.2)) = _
    rw [ih (f x)]
    refine Prod.ext ?_ ?_
    · show f^[m] (f x) = f^[m + 1] x
      rw [Function.iterate_succ_apply]
    · show x :: (List.range m).map (fun j => f^[j] (f x)) =
        (List.range (m + 1)).map (fun j => f^[j] x)
      rw [List.range_succ_eq_map, List.map_cons, List.map_map]
      refine congrArg₂ _ rfl (List.map_congr_left ?_)
      intro j _
      show f^[j] (f x) = f^[j + 1] x
      rw [Function.iterate_succ_apply]

/-- C10: `_build_bottleneck_convolutions` yields `depth - 1` references to
the single shared conv module (`single_conv * (depth - 1)`), and
`EncBottleneckConv.forward` therefore equals iterating that one function
`depth - 1` times, pushing the current input before each application. -/
theorem C10_bottleneck_shares_single_module {α : Type} (f : α → α)
    (depth : Nat) (x : α) :
    buildBottleneckConvolutions f depth = List.replicate (depth - 1) f ∧
    encBottleneckForward (buildBottleneckConvolutions f depth) x =
      (f^[depth - 1] x, (List.range (depth - 1)).map (fun j => f^[j] x)) :=
  ⟨rfl, encBottleneckForward_replicate f (depth - 1) x⟩

/-! ## `size_splits` lemmas -/

/-- The chunk list built from cumulative starts has one chunk per requested
size, and each chunk has exactly its requested length, provided the sizes
fit into the tensor. -/
theorem size_splits_chunk_lengths {α : Type} :
    ∀ (sizes : List Nat) (xs : List α) (a : Nat),
      a + sizes.sum ≤ xs.length →
      ((((List.scanl (· + ·) a sizes).dropLast).zip sizes).map
        (fun p => narrowL xs p.1 p.2)).map List.length = sizes := by
  intro sizes
  induction sizes with
  | nil => intro xs a _; rfl
  | cons s rest ih =>
    intro xs a hle
    have hne : List.scanl (· + ·) (a + s) rest ≠ [] := by
      cases rest <;> simp [List.scanl]
    rw [List.scanl_cons, List.singleton_append, List.dropLast_cons_of_ne_nil hne]
    simp only [List.zip_cons_cons, List.map_cons]
    have hlen : (narrowL xs a s).length = s := by
      unfold narrowL
      rw [List.length_take, List.length_drop]
      simp only [List.sum_cons] at hle
      omega
    rw [hlen]
    have := ih xs (a + s) (by simp only [List.sum_cons] at hle; omega)
    rw [this]

/-- The chunks built from cumulative starts are consecutive: their
concatenation is the tensor from position `a` on, when the sizes sum to
exactly the remaining length. -/
theorem size_splits_chunk_join {α : Type} :
    ∀ (sizes : List Nat) (xs : List α) (a : Nat),
      a + sizes.sum = xs.length →
      ((((List.scanl (· + ·) a sizes).dropLast).zip sizes).map
        (fun p => narrowL xs p.1 p.2)).flatten = xs.drop a := by
  intro sizes
  induction sizes with
  | nil =>
    intro xs a ha
    simp only [List.sum_nil, Nat.add_zero] at ha
    simp [List.scanl, ha, List.drop_length]
  | cons s rest ih =>
    intro xs a ha
    have hne : List.scanl (· + ·) (a + s) rest ≠ [] := by
      cases rest <;> simp [List.scanl]
    rw [List.scanl_cons, List.singleton_append, List.dropLast_cons_of_ne_nil hne]
    simp only [List.zip_cons_cons, List.map_cons, List.flatten_cons]
    rw [ih xs (a + s) (by simp only [List.sum_cons] at ha; omega)]
    unfold narrowL
    rw [← List.drop_drop, List.take_append_drop]

/-! ## Claim C8 -/

/-- Below `2^24` the float32 rounding is the identity. -/
theorem fp32RoundNat_of_le (n : Nat) (h : n ≤ 2 ^ 24) : fp32RoundNat n = n := by
  unfold fp32RoundNat
  rw [if_pos h]

/-- When the sizes sum to at most `2^24`, each size is exactly
representable and the float32 tensor holds the sizes unchanged. -/
theorem map_fp32RoundNat_of_sum_le (sizes : List Nat)
    (h : sizes.sum ≤ 2 ^ 24) : sizes.map fp32RoundNat = sizes := by
  induction sizes with
  | nil => rfl
  | cons a as ih =>
    simp only [List.sum_cons] at h
    rw [List.map_cons, fp32RoundNat_of_le a (by omega), ih (by omega)]

/-- When every partial sum stays at most `2^24`, the float32 accumulation
is exact. -/
theorem foldl_fp32Add_of_le :
    ∀ (sizes : List Nat) (a : Nat), a + sizes.sum ≤ 2 ^ 24 →
      sizes.foldl fp32Add a = a + sizes.sum := by
  intro sizes
  induction sizes with
  | nil => intro a _; rfl
  | cons b bs ih =>
    intro a h
    simp only [List.sum_cons] at h
    show bs.foldl fp32Add (fp32Add a b) = a + (b + bs.sum)
    rw [show fp32Add a b = a + b from fp32RoundNat_of_le (a + b) (by omega)]
    rw [ih (a + b) (by omega)]
    omega

/-- When every partial sum stays at most `2^24`, the float32 cumulative sum
equals the exact cumulative sum. -/
theorem scanl_fp32Add_of_le :
    ∀ (sizes : List Nat) (a : Nat), a + sizes.sum ≤ 2 ^ 24 →
      List.scanl fp32Add a sizes = List.scanl (· + ·) a sizes := by
  intro sizes
  induction sizes with
  | nil => intro a _; rfl
  | cons b bs ih =>
    intro a h
    simp only [List.sum_cons] at h
    rw [List.scanl_cons, List.scanl_cons]
    rw [show fp32Add a b = a + b from fp32RoundNat_of_le (a + b) (by omega)]
    rw [ih (a + b) (by omega)]

/-- C8 (counterexample): the float32 guard and float32 cumulative starts
break both halves of the claim once `2^24` is reached.

1. Silent truncation: on a tensor of `2^24 + 1` channels with sizes
   `[2^24]`, the sizes do not sum to the dimension, yet the guard passes —
   `2^24 + 1` promoted to float32 rounds to `2^24`, equal to the float32
   sum — and `size_splits` returns one chunk of `2^24` channels, silently
   dropping the final channel instead of failing fatally.
2. Non-consecutive chunks: on a tensor of `2^24 + 4` channels with sizes
   `[2^24, 1, 3]`, the sizes sum exactly to the dimension, but the float32
   cumulative sum rounds the second start from `2^24 + 1` down to `2^24`,
   so the second and third chunks overlap: the concatenation of the chunks
   is not the input tensor. -/
theorem C8_counterexample :
    ((List.replicate (2 ^ 24) (0 : Nat) ++ [7]).length ≠
        ([2 ^ 24] : List Nat).sum ∧
      size_splits (List.replicate (2 ^ 24) (0 : Nat) ++ [7]) [2 ^ 24] =
        Except.ok [List.replicate (2 ^ 24) (0 : Nat)] ∧
      ([List.replicate (2 ^ 24) (0 : Nat)] : List (List Nat)).flatten ≠
        List.replicate (2 ^ 24) (0 : Nat) ++ [7]) ∧
    ((List.replicate (2 ^ 24) (0 : Nat) ++ [1, 2, 3, 4]).length =
        ([2 ^ 24, 1, 3] : List Nat).sum ∧
      size_splits (List.replicate (2 ^ 24) (0 : Nat) ++ [1, 2, 3, 4])
          [2 ^ 24, 1, 3] =
        Except.ok [List.replicate (2 ^ 24) (0 : Nat), [1], [1, 2, 3]] ∧
      ([List.replicate (2 ^ 24) (0 : Nat), [1], [1, 2, 3]] :
          List (List Nat)).flatten ≠
        List.replicate (2 ^ 24) (0 : Nat) ++ [1, 2, 3, 4]) := by
  have hrep : (List.replicate (2 ^ 24) (0 : Nat)).length = 2 ^ 24 :=
    List.length_replicate (2 ^ 24) 0
  refine ⟨⟨?_, ?_, ?_⟩, ?_, ?_, ?_⟩
  · rw [List.length_append, hrep]
    decide
  · unfold size_splits
    rw [List.length_append, hrep]
    rw [if_neg (by decide)]
    show Except.ok [narrowL (List.replicate (2 ^ 24) (0 : Nat) ++ [7]) 0 (2 ^ 24)] =
      Except.ok [List.replicate (2 ^ 24) (0 : Nat)]
    unfold narrowL
    rw [List.drop_zero, List.take_left' hrep]
  · intro h
    have hlen := congrArg List.length h
    rw [List.flatten_cons, List.flatten_nil, List.append_nil,
      List.length_append, hrep] at hlen
    simp only [List.length_cons, List.length_nil] at hlen
    omega
  · rw [List.length_append, hrep]
    decide
  · unfold size_splits
    rw [List.length_append, hrep]
    rw [if_neg (by decide)]
    rw [show (List.scanl fp32Add 0 (List.map fp32RoundNat [2 ^ 24, 1, 3])).dropLast =
      [0, 2 ^ 24, 2 ^ 24] from by decide]
    show Except.ok
        [narrowL (List.replicate (2 ^ 24) (0 : Nat) ++ [1, 2, 3, 4]) 0 (2 ^ 24),
         narrowL (List.replicate (2 ^ 24) (0 : Nat) ++ [1, 2, 3, 4]) (2 ^ 24) 1,
         narrowL (List.replicate (2 ^ 24) (0 : Nat) ++ [1, 2, 3, 4]) (2 ^ 24) 3] =
      Except.ok [List.replicate (2 ^ 24) (0 : Nat), [1], [1, 2, 3]]
    unfold narrowL
    rw [List.drop_zero, List.take_left' hrep, List.drop_left' hrep]
    rfl
  · intro h
    rw [List.flatten_cons] at h
    have h2 := List.append_cancel_left h
    simp at h2

/-- C8 (amended): in the exact float32 regime — tensor extent and size sum
at most `2^24`, so that the float32 guard and cumulative starts incur no
rounding — `size_splits` fails with the descriptive `KeyError` message
exactly when the sizes do not sum to the tensor's extent along the split
dimension, and otherwise returns consecutive chunks of the requested sizes
in order, whose concatenation is the original tensor. -/
theorem C8_size_splits_exact_regime {α : Type} (xs : List α)
    (sizes : List Nat) (hx : xs.length ≤ 2 ^ 24) (hs : sizes.sum ≤ 2 ^ 24) :
    (xs.length ≠ sizes.sum →
      size_splits xs sizes =
        Except.error "Sum of split sizes exceeds tensor dim") ∧
    (xs.length = sizes.sum →
      ∃ cs, size_splits xs sizes = Except.ok cs ∧
        cs.map List.length = sizes ∧ cs.flatten = xs) := by
  have hmap := map_fp32RoundNat_of_sum_le sizes hs
  have hfold : (sizes.map fp32RoundNat).foldl fp32Add 0 = sizes.sum := by
    rw [hmap]
    have h := foldl_fp32Add_of_le sizes 0 (by omega)
    rw [h]
    omega
  have hguard : fp32RoundNat xs.length = xs.length :=
    fp32RoundNat_of_le xs.length hx
  constructor
  · intro hne
    unfold size_splits
    rw [if_pos (by rw [hguard, hfold]; exact hne)]
  · intro heq
    unfold size_splits
    rw [if_neg (by rw [hguard, hfold]; omega)]
    rw [hmap, scanl_fp32Add_of_le sizes 0 (by omega)]
    refine ⟨_, rfl, ?_, ?_⟩
    · exact size_splits_chunk_lengths sizes xs 0 (by omega)
    · have h := size_splits_chunk_join sizes xs 0 (by omega)
      rw [List.drop_zero] at h
      exact h

/-- C8 witness: in the exact regime, a mismatching size list raises the
error and a matching one yields chunks `[2, 3]` covering `range 5`. -/
theorem C8_size_splits_exact_regime_witness :
    size_splits (List.range 5) [9] =
      Except.error "Sum of split sizes exceeds tensor dim" ∧
    ∃ cs, size_splits (List.range 5) [2, 3] = Except.ok cs ∧
      cs.map List.length = [2, 3] ∧ cs.flatten = List.range 5 :=
  ⟨(C8_size_splits_exact_regime (List.range 5) [9] (by decide)
      (by decide)).1 (by decide),
   (C8_size_splits_exact_regime (List.range 5) [2, 3] (by decide)
      (by decide)).2 (by decide)⟩

/-! ## Claim C4 -/

/-- C4: on a 512-channel latent, the channel-split strategy satisfies
`assemble(split(x)) = x` exactly: `split` yields `light` = channels `[0, 3)`
(3 channels) and `scene` = channels `[3, 512)` (509 channels), and
`assemble` concatenates `(light, scene)` in that order, reconstructing `x`
and preserving the total channel count. -/
theorem C4_channel_split_roundtrip {α : Type} (xs : List α)
    (h512 : xs.length = 512) :
    anOtherSwapNetSplit xs = Except.ok (xs.drop 3, xs.take 3) ∧
    (xs.take 3).length = 3 ∧ (xs.drop 3).length = 509 ∧
    anOtherSwapNetAssemble (xs.drop 3) (xs.take 3) = xs := by
  have hss : size_splits xs [3, 509] = Except.ok [xs.take 3, xs.drop 3] := by
    unfold size_splits
    rw [if_neg (by rw [h512]; decide)]
    congr 1
    show [narrowL xs 0 3, narrowL xs 3 509] = [xs.take 3, xs.drop 3]
    unfold narrowL
    rw [List.drop_zero]
    have : (xs.drop 3).take 509 = xs.drop 3 := by
      apply List.take_of_length_le
      rw [List.length_drop, h512]
    rw [this]
  refine ⟨?_, ?_, ?_, ?_⟩
  · unfold anOtherSwapNetSplit
    rw [hss]
    rfl
  · rw [List.length_take, h512]
    omega
  · rw [List.length_drop, h512]
  · exact List.take_append_drop 3 xs

/-- C4 witness: the round trip at the concrete latent `range 512`. -/
theorem C4_channel_split_roundtrip_witness :
    anOtherSwapNetSplit (List.range 512) =
      Except.ok ((List.range 512).drop 3, (List.range 512).take 3) ∧
    ((List.range 512).take 3).length = 3 ∧
    ((List.range 512).drop 3).length = 509 ∧
    anOtherSwapNetAssemble ((List.range 512).drop 3) ((List.range 512).take 3) =
      List.range 512 :=
  C4_channel_split_roundtrip (List.range 512) (by simp)

/-! ## Claim C6 -/

/-- C6: in `SwapNet.forward` the decoder is invoked exactly once (the trace
of decoder calls is a one-element list), its latent argument is
`assemble(image_scene, target_light)`, its stack argument is the image's
disabled-filtered skip stack — a function of `image` alone, hence unchanged
by the target and ground-truth encoder calls — and the returned tuple is
the relit image followed by the three light components and the three scene
components (image, target, ground-truth order). -/
theorem C6_swapnet_decodes_once_with_image_stack
    {I L Sc Li R S : Type}
    (latentOf : I → L) (skipsOf : I → List S) (empty : S) (dis : List Nat)
    (split : L → Sc × Li) (assemble : Sc → Li → L) (decode : L → List S → R)
    (image target groundtruth target2 groundtruth2 : I) :
    (swapNetForward latentOf skipsOf empty dis split assemble decode
        image target groundtruth).2 =
      [(assemble (split (latentOf image)).1 (split (latentOf target)).2,
        applyDisableL empty dis (skipsOf image))] ∧
    (swapNetForward latentOf skipsOf empty dis split assemble decode
        image target groundtruth).1 =
      (decode (assemble (split (latentOf image)).1 (split (latentOf target)).2)
          (applyDisableL empty dis (skipsOf image)),
        (split (latentOf image)).2, (split (latentOf target)).2,
        (split (latentOf groundtruth)).2,
        (split (latentOf image)).1, (split (latentOf target)).1,
        (split (latentOf groundtruth)).1) ∧
    ((swapNetForward latentOf skipsOf empty dis split assemble decode
        image target groundtruth).2.map Prod.snd =
      (swapNetForward latentOf skipsOf empty dis split assemble decode
        image target2 groundtruth2).2.map Prod.snd) :=
  ⟨rfl, rfl, rfl⟩

/-! ## Claim C9 -/

/-- C9: `GroundtruthEnvmapSwapNet.forward` uses only the image and target
encodings — the swapped latent is `assemble(None, target_light)`, decoding
uses the image's skip stack, and the result is independent of the
ground-truth argument: any two ground-truth inputs give identical outputs. -/
theorem C9_groundtruth_envmap_ignores_groundtruth
    {I L Sc Li R S : Type}
    (latentOf : I → L) (skipsOf : I → List S) (empty : S) (dis : List Nat)
    (split : L → Option Sc × Li) (assemble : Option Sc → Li → L)
    (decode : L → List S → R) (image target g1 g2 : I) :
    groundtruthEnvmapSwapNetForward latentOf skipsOf empty dis split assemble
        decode image target g1 =
      groundtruthEnvmapSwapNetForward latentOf skipsOf empty dis split assemble
        decode image target g2 ∧
    groundtruthEnvmapSwapNetForward latentOf skipsOf empty dis split assemble
        decode image target g1 =
      (decode (assemble none (split (latentOf target)).2)
          (applyDisableL empty dis (skipsOf image)),
        (split (latentOf image)).2, (split (latentOf target)).2) :=
  ⟨rfl, rfl⟩

/-! ## Decoder flattening: the whole decoder is one pop-concat-conv loop -/

/-- `convsLoop` over an appended block list runs the two parts in
sequence. -/
theorem convsLoop_append {α : Type} (fs gs : List (α → Option α))
    (cat : α → α → α) :
    ∀ (x : α) (st : List α),
      convsLoop (fs ++ gs) cat x st =
        (convsLoop fs cat x st).bind (fun p => convsLoop gs cat p.1 p.2) := by
  induction fs with
  | nil => intro x st; rfl
  | cons f fs ih =>
    intro x st
    show (popStack st).bind _ = ((popStack st).bind _).bind _
    cases hp : popStack st with
    | none => rfl
    | some p =>
      show (f (cat x p.1)).bind _ = ((f (cat x p.1)).bind _).bind _
      cases hf : f (cat x p.1) with
      | none => rfl
      | some y =>
        exact ih y p.2

/-- `DecDoubleConv.forward` is the uniform loop over `[conv1, conv2]`. -/
theorem decDoubleConv_eq_convsLoop {α : Type} (cat : α → α → α)
    (c1 c2 : α → Option α) (x : α) (st : List α) :
    decDoubleConvForwardG cat c1 c2 x st = convsLoop [c1, c2] cat x st := by
  unfold decDoubleConvForwardG
  show (popStack st).bind _ = (popStack st).bind _
  cases hp : popStack st with
  | none => rfl
  | some p =>
    show (c1 (cat x p.1)).bind _ = (c1 (cat x p.1)).bind _
    cases h1 : c1 (cat x p.1) with
    | none => rfl
    | some y =>
      show (popStack p.2).bind _ = (popStack p.2).bind _
      cases h2 : popStack p.2 with
      | none => rfl
      | some q => rfl

/-- One step of the uniform loop, in projection form. -/
theorem convsLoop_cons {α : Type} (f : α → Option α) (fs : List (α → Option α))
    (cat : α → α → α) (x : α) (st : List α) :
    convsLoop (f :: fs) cat x st =
      (popStack st).bind (fun p => (f (cat x p.1)).bind (fun y =>
        convsLoop fs cat y p.2)) := rfl

/-- `DecBottleneckConv.forward` is `encode` followed by the uniform loop
over its skip-consuming layers. -/
theorem decBottleneck_eq_convsLoop {α : Type} (B : DecBlocks α) (x : α)
    (st : List α) :
    decBottleneckForwardG B x st =
      (B.bnEncode x).bind (fun y =>
        convsLoop (B.bnInitial :: (B.bnConvs ++ [B.bnOut])) B.cat y st) := by
  unfold decBottleneckForwardG
  cases hE : B.bnEncode x with
  | none => rfl
  | some y =>
    show (popStack st).bind _ =
      convsLoop (B.bnInitial :: (B.bnConvs ++ [B.bnOut])) B.cat y st
    rw [convsLoop_cons]
    cases hp : popStack st with
    | none => rfl
    | some p =>
      show (B.bnInitial (B.cat y p.1)).bind _ = (B.bnInitial (B.cat y p.1)).bind _
      cases hi : B.bnInitial (B.cat y p.1) with
      | none => rfl
      | some z =>
        show (convsLoop B.bnConvs B.cat z p.2).bind _ =
          convsLoop (B.bnConvs ++ [B.bnOut]) B.cat z p.2
        rw [convsLoop_append]
        refine congrArg _ (funext fun q => ?_)
        rfl

/-- The double-convolution stage loop of `Decoder.forward` is the uniform
loop over the flattened `(conv1, conv2)` pairs. -/
theorem dcFold_eq_convsLoop {α : Type} (cat : α → α → α) :
    ∀ (dcs : List ((α → Option α) × (α → Option α))) (x : α) (st : List α),
      dcFold cat dcs x st =
        convsLoop (dcs.flatMap (fun p => [p.1, p.2])) cat x st := by
  intro dcs
  induction dcs with
  | nil => intro x st; rfl
  | cons p ps ih =>
    intro x st
    show (decDoubleConvForwardG cat p.1 p.2 x st).bind _ =
      convsLoop ([p.1, p.2] ++ ps.flatMap (fun q => [q.1, q.2])) cat x st
    rw [convsLoop_append, decDoubleConv_eq_convsLoop]
    refine congrArg _ (funext fun q => ?_)
    exact ih q.1 q.2

/-- `Decoder.forward` flattens to `encode` followed by the uniform loop over
all skip-consuming layers in execution order. -/
theorem decoderForward_flatten {α : Type} (B : DecBlocks α) (x : α)
    (st : List α) :
    decoderForwardG B x st =
      (B.bnEncode x).bind (fun y =>
        convsLoop (flattenBlocks B) B.cat y st) := by
  unfold decoderForwardG
  rw [decBottleneck_eq_convsLoop]
  cases hE : B.bnEncode x with
  | none => rfl
  | some y =>
    show (convsLoop (B.bnInitial :: (B.bnConvs ++ [B.bnOut])) B.cat y st).bind _ =
      convsLoop (flattenBlocks B) B.cat y st
    rw [show flattenBlocks B =
        (B.bnInitial :: (B.bnConvs ++ [B.bnOut])) ++
          (B.dcs.flatMap (fun p => [p.1, p.2]) ++ [B.outBlk]) by
      unfold flattenBlocks
      simp [List.append_assoc]]
    rw [convsLoop_append]
    cases hA : convsLoop (B.bnInitial :: (B.bnConvs ++ [B.bnOut])) B.cat y st with
    | none => rfl
    | some p =>
      show (dcFold B.cat B.dcs p.1 p.2).bind _ =
        convsLoop ((B.dcs.flatMap fun q => [q.1, q.2]) ++ [B.outBlk]) B.cat p.1 p.2
      rw [dcFold_eq_convsLoop, convsLoop_append]
      refine congrArg _ (funext fun q => ?_)
      show (popStack q.2).bind _ = (popStack q.2).bind _
      cases hp : popStack q.2 with
      | none => rfl
      | some r =>
        show (B.outBlk (B.cat q.1 r.1)).bind _ = (B.outBlk (B.cat q.1 r.1)).bind _
        cases ho : B.outBlk (B.cat q.1 r.1) with
        | none => rfl
        | some z => rfl

/-! ## The uniform loop on pass-through blocks: pop discipline -/

/-- The uniform loop with pass-through blocks pops exactly `k` entries off
the end of the stack (most recent first), folding them into `x`. -/
theorem convsLoop_some_replicate {α : Type} (cat : α → α → α) :
    ∀ (k : Nat) (x : α) (st : List α), k ≤ st.length →
      convsLoop (List.replicate k some) cat x st =
        some (((st.drop (st.length - k)).reverse).foldl cat x,
          st.take (st.length - k)) := by
  intro k
  induction k with
  | zero =>
    intro x st _
    show some (x, st) = _
    rw [Nat.sub_zero, List.drop_length, List.take_length]
    rfl
  | succ m ih =>
    intro x st hle
    have hne : st ≠ [] := by
      intro hnil
      rw [hnil] at hle
      simp at hle
    rw [List.replicate_succ, convsLoop_cons]
    have hpop : popStack st = some (st.getLast hne, st.dropLast) := by
      unfold popStack
      rw [List.getLast?_eq_getLast st hne]
    rw [hpop]
    show convsLoop (List.replicate m some) cat (cat x (st.getLast hne))
      st.dropLast = _
    rw [ih (cat x (st.getLast hne)) st.dropLast
      (by rw [List.length_dropLast]; omega)]
    have e1 : st.dropLast.length - m = st.length - (m + 1) := by
      rw [List.length_dropLast]; omega
    have e2 : st.drop (st.length - (m + 1)) =
        st.dropLast.drop (st.length - (m + 1)) ++ [st.getLast hne] := by
      have h1 : st.length - (m + 1) ≤ st.dropLast.length := by
        rw [List.length_dropLast]; omega
      conv_lhs => rw [← List.dropLast_append_getLast hne]
      rw [show (st.dropLast ++ [st.getLast hne]).length - (m + 1) =
          st.length - (m + 1) from by rw [List.dropLast_append_getLast hne]]
      rw [List.drop_append_of_le_length h1]
    have e3 : st.dropLast.take (st.length - (m + 1)) =
        st.take (st.length - (m + 1)) := by
      rw [List.dropLast_eq_take, List.take_take]
      congr 1
      omega
    rw [e1, e2, e3, List.reverse_append]
    rfl

/-- Folding list append over singleton lists concatenates the tags. -/
theorem foldl_append_singletons {β : Type} :
    ∀ (L : List β) (acc : List β),
      ((L.map (fun i => [i])).foldl (fun a s => a ++ s) acc) = acc ++ L := by
  intro L
  induction L with
  | nil => intro acc; simp
  | cons a as ih =>
    intro acc
    show ((as.map (fun i => [i])).foldl (fun a s => a ++ s) (acc ++ [a])) = _
    rw [ih (acc ++ [a]), List.append_assoc]
    rfl

/-- The flattened tag-model decoder consists of `decPopCount` pass-through
blocks: one for `initial_conv`, `depth - 3` for `convs`, one for `out_conv`,
two per double-convolution stage, one for the output stage. -/
theorem flattenBlocks_tag (n d : Nat) :
    flattenBlocks (mkDecBlocksTag n d) =
      List.replicate (decPopCount n d) (some : List Nat → Option (List Nat)) := by
  have hfm : ∀ m : Nat,
      (List.replicate m ((some : List Nat → Option (List Nat)),
        (some : List Nat → Option (List Nat)))).flatMap
          (fun p => [p.1, p.2]) = List.replicate (2 * m) some := by
    intro m
    induction m with
    | zero => rfl
    | succ k ih =>
      rw [List.replicate_succ, List.flatMap_cons, ih,
        show 2 * (k + 1) = (2 * k).succ.succ from by omega,
        List.replicate_succ, List.replicate_succ]
      rfl
  unfold flattenBlocks mkDecBlocksTag
  rw [hfm]
  rw [List.eq_replicate_iff]
  constructor
  · simp only [List.length_cons, List.length_append, List.length_replicate,
      List.length_singleton, List.length_nil]
    unfold decPopCount
    omega
  · intro b hb
    simp only [List.mem_cons, List.mem_append, List.mem_replicate,
      List.mem_singleton] at hb
    tauto

/-- The tag-model decoder on a full stack of `encPushCount` entries drains
it completely, popping in LIFO order. -/
theorem decoderTagRun_drains (n d : Nat) (h3 : 3 ≤ d) :
    decoderTagRun n d (encPushCount n d) =
      some ((List.range (encPushCount n d)).reverse, []) := by
  unfold decoderTagRun
  rw [decoderForward_flatten]
  show convsLoop (flattenBlocks (mkDecBlocksTag n d)) (· ++ ·) []
    ((List.range (encPushCount n d)).map (fun i => [i])) = _
  rw [flattenBlocks_tag n d]
  have hk : decPopCount n d = encPushCount n d := by
    unfold decPopCount encPushCount
    omega
  have hlen : ((List.range (encPushCount n d)).map
      (fun i => ([i] : List Nat))).length = encPushCount n d := by
    rw [List.length_map, List.length_range]
  rw [hk]
  rw [convsLoop_some_replicate (· ++ ·) (encPushCount n d) _ _ (Nat.le_of_eq hlen.symm)]
  rw [hlen, Nat.sub_self, List.drop_zero, List.take_zero,
    ← List.map_reverse, foldl_append_singletons, List.nil_append]

/-! ## Encoder push counts -/

/-- A successful `ImageEncoding.forward` pushes exactly one tensor. -/
theorem imageEncodingShape_skips_length (x : Shape) (p : Shape × List Shape)
    (h : imageEncodingShape x = some p) : p.2.length = 1 := by
  unfold imageEncodingShape at h
  rw [Option.bind_eq_bind, Option.bind_eq_some] at h
  obtain ⟨a, _, h⟩ := h
  rw [Option.bind_eq_some] at h
  obtain ⟨b, _, h⟩ := h
  rw [Option.bind_eq_some] at h
  obtain ⟨c, _, h⟩ := h
  change some (c, [b]) = some p at h
  injection h with h
  subst h
  rfl

/-- A successful `EncDoubleConv.forward` pushes exactly two tensors. -/
theorem encDoubleConvShape_skips_length (inC outC : Nat) (x : Shape)
    (p : Shape × List Shape) (h : encDoubleConvShape inC outC x = some p) :
    p.2.length = 2 := by
  unfold encDoubleConvShape at h
  rw [Option.bind_eq_bind, Option.bind_eq_some] at h
  obtain ⟨a, _, h⟩ := h
  rw [Option.bind_eq_some] at h
  obtain ⟨b, _, h⟩ := h
  change some (b, [x, a]) = some p at h
  injection h with h
  subst h
  rfl

/-- A successful run of the double-convolution chain of length `m` pushes
exactly `2 * m` tensors. -/
theorem encChainShape_skips_length :
    ∀ (m i : Nat) (x : Shape) (p : Shape × List Shape),
      encChainShape i m x = some p → p.2.length = 2 * m := by
  intro m
  induction m with
  | zero =>
    intro i x p h
    change some (x, []) = some p at h
    injection h with h
    subst h
    rfl
  | succ k ih =>
    intro i x p h
    change (encDoubleConvShape (64 * 2 ^ i) (64 * 2 ^ (i + 1)) x).bind _ = some p at h
    rw [Option.bind_eq_some] at h
    obtain ⟨a, ha, h⟩ := h
    obtain ⟨y, s⟩ := a
    change (encChainShape (i + 1) k y).bind _ = some p at h
    rw [Option.bind_eq_some] at h
    obtain ⟨b, hb, h⟩ := h
    obtain ⟨z, t⟩ := b
    change some (z, s ++ t) = some p at h
    injection h with h
    subst h
    have hs := encDoubleConvShape_skips_length _ _ x (y, s) ha
    have ht := ih (i + 1) y (z, t) hb
    show (s ++ t).length = 2 * (k + 1)
    rw [List.length_append]
    simp only at hs ht
    omega

/-- A successful bottleneck loop of `k` iterations pushes exactly `k`
tensors. -/
theorem encBottleneckShapeAux_skips_length (inC : Nat) :
    ∀ (k : Nat) (x : Shape) (p : Shape × List Shape),
      encBottleneckShapeAux inC k x = some p → p.2.length = k := by
  intro k
  induction k with
  | zero =>
    intro x p h
    change some (x, []) = some p at h
    injection h with h
    subst h
    rfl
  | succ m ih =>
    intro x p h
    change (conv2dShape inC inC 3 1 1 x).bind _ = some p at h
    rw [Option.bind_eq_some] at h
    obtain ⟨y, _, h⟩ := h
    change (encBottleneckShapeAux inC m y).bind _ = some p at h
    rw [Option.bind_eq_some] at h
    obtain ⟨b, hb, h⟩ := h
    obtain ⟨z, t⟩ := b
    change some (z, x :: t) = some p at h
    injection h with h
    subst h
    have ht := ih y (z, t) hb
    show (x :: t).length = m + 1
    simp only at ht
    rw [List.length_cons, ht]

/-- Every successful `Encoder.forward` pushes exactly `encPushCount` skip
connections: one from the image encoding, two per double-convolution stage,
`depth - 1` from the bottleneck. -/
theorem encoderShape_skips_length (n d : Nat) (sh : Shape)
    (p : Shape × List Shape) (h : encoderShape n d sh = some p) :
    p.2.length = encPushCount n d := by
  unfold encoderShape at h
  rw [Option.bind_eq_bind, Option.bind_eq_some] at h
  obtain ⟨a, ha, h⟩ := h
  obtain ⟨x1, s1⟩ := a
  change (encChainShape 0 n x1).bind _ = some p at h
  rw [Option.bind_eq_some] at h
  obtain ⟨b, hb, h⟩ := h
  obtain ⟨x2, s2⟩ := b
  change (encBottleneckShapeAux 512 (d - 1) x2).bind _ = some p at h
  rw [Option.bind_eq_some] at h
  obtain ⟨c, hc, h⟩ := h
  obtain ⟨x3, s3⟩ := c
  change some (x3, s1 ++ s2 ++ s3) = some p at h
  injection h with h
  subst h
  have l1 := imageEncodingShape_skips_length sh (x1, s1) ha
  have l2 := encChainShape_skips_length n 0 x1 (x2, s2) hb
  have l3 := encBottleneckShapeAux_skips_length 512 (d - 1) x2 (x3, s3) hc
  show (s1 ++ s2 ++ s3).length = encPushCount n d
  simp only at l1 l2 l3
  rw [List.length_append, List.length_append, l1, l2, l3]
  unfold encPushCount
  omega

/-! ## Claim C2 -/

/-- C2 (amended to `bottleneck_depth ≥ 3`): for every configuration with
`depth ≥ 3`, every successful `Encoder.forward` pushes exactly
`encPushCount = 1 + 2 n + (depth - 1)` skip tensors; the decoder performs
exactly `decPopCount = (1 + (depth - 3) + 1) + 2 n + 1` pops, which equals
the push count; and the decoder run on a full stack pops every entry in
LIFO order, leaving the stack empty. -/
theorem C2_decoder_pops_equal_encoder_pushes (n d : Nat) (h3 : 3 ≤ d) :
    (∀ (sh : Shape) (p : Shape × List Shape),
      encoderShape n d sh = some p → p.2.length = encPushCount n d) ∧
    (flattenBlocks (mkDecBlocksTag n d)).length = decPopCount n d ∧
    decPopCount n d = encPushCount n d ∧
    decoderTagRun n d (encPushCount n d) =
      some ((List.range (encPushCount n d)).reverse, []) := by
  refine ⟨fun sh p h => encoderShape_skips_length n d sh p h, ?_, ?_, ?_⟩
  · rw [flattenBlocks_tag n d, List.length_replicate]
  · unfold decPopCount encPushCount
    omega
  · exact decoderTagRun_drains n d h3

/-- C2 witness: the default configuration `n = 3`, `depth = 4` — ten pushes,
ten pops in LIFO order, empty stack afterwards. -/
theorem C2_decoder_pops_equal_encoder_pushes_witness :
    decPopCount 3 4 = encPushCount 3 4 ∧
    decoderTagRun 3 4 (encPushCount 3 4) =
      some ((List.range (encPushCount 3 4)).reverse, []) ∧
    (∀ (p : Shape × List Shape),
      encoderShape 3 4 ⟨1, 3, 256, 256⟩ = some p →
        p.2.length = encPushCount 3 4) :=
  ⟨(C2_decoder_pops_equal_encoder_pushes 3 4 (by decide)).2.2.1,
   (C2_decoder_pops_equal_encoder_pushes 3 4 (by decide)).2.2.2,
   fun p h =>
     (C2_decoder_pops_equal_encoder_pushes 3 4 (by decide)).1 ⟨1, 3, 256, 256⟩ p h⟩

/-- C2 (counterexample): at `bottleneck_depth = 2` — accepted by the
decoder's `assert depth >= 2` — the claim fails: the decoder bottleneck is
built with 2 pops (`initial_conv` and `out_conv`), not `depth - 1 = 1`, so
the decoder attempts `decPopCount 3 2 = 9` pops against the
`encPushCount 3 2 = 8` pushes of a matching encoder and underflows
(the tag run on the full 8-entry stack returns `none`); on a 1-entry stack
(the paired encoder bottleneck's `depth - 1 = 1` pushes) the bottleneck
alone already underflows, while on a 2-entry stack it pops both. -/
theorem C2_counterexample :
    decPopCount 3 2 = 9 ∧ encPushCount 3 2 = 8 ∧
    decoderTagRun 3 2 (encPushCount 3 2) = none ∧
    decBottleneckTagRun 2 1 = none ∧
    decBottleneckTagRun 2 2 = some ([1, 0], []) := by
  refine ⟨rfl, rfl, ?_, ?_, ?_⟩ <;> decide

/-! ## Stack surgery lemmas -/

/-- A successful pop returns the dropLast of the stack as the new stack. -/
theorem popStack_eq_some {α : Type} (u : List α) (p : α × List α)
    (h : popStack u = some p) : p.2 = u.dropLast := by
  unfold popStack at h
  cases hg : u.getLast? with
  | none => rw [hg] at h; exact Option.noConfusion h
  | some a => rw [hg] at h; injection h with h; rw [← h]

/-- Setting an entry that is not the last one commutes with `dropLast`. -/
theorem dropLast_set_of_lt {α : Type} :
    ∀ (u : List α) (i : Nat) (e : α), i + 1 < u.length →
      (u.set i e).dropLast = u.dropLast.set i e
  | [], i, e, h => by simp at h
  | [a], i, e, h => by simp at h
  | a :: b :: t, 0, e, h => by
    show (e :: b :: t).dropLast = (a :: (b :: t).dropLast).set 0 e
    rfl
  | a :: b :: t, i + 1, e, h => by
    have ih := dropLast_set_of_lt (b :: t) i e
      (by simp only [List.length_cons] at h ⊢; omega)
    show (a :: (b :: t).set i e).dropLast = (a :: (b :: t).dropLast).set (i + 1) e
    have hne : (b :: t).set i e ≠ [] := by cases i <;> simp
    rw [List.dropLast_cons_of_ne_nil hne]
    show a :: ((b :: t).set i e).dropLast = a :: ((b :: t).dropLast.set i e)
    rw [ih]

/-- Setting an entry that is not the last one does not change `getLast?`. -/
theorem getLast?_set_of_lt {α : Type} (u : List α) (i : Nat) (e : α)
    (h : i + 1 < u.length) : (u.set i e).getLast? = u.getLast? := by
  rw [List.getLast?_eq_getElem?, List.getLast?_eq_getElem?, List.length_set]
  exact List.getElem?_set_ne (by omega)

/-- Popping from a stack with a non-last entry overwritten pops the same
value and keeps the overwrite in the remaining stack. -/
theorem popStack_set {α : Type} (u : List α) (i : Nat) (e : α)
    (h : i + 1 < u.length) :
    popStack (u.set i e) = (popStack u).map (fun p => (p.1, p.2.set i e)) := by
  unfold popStack
  rw [getLast?_set_of_lt u i e h]
  cases hg : u.getLast? with
  | none => rfl
  | some a =>
    show some (a, (u.set i e).dropLast) = some (a, u.dropLast.set i e)
    rw [dropLast_set_of_lt u i e h]

/-- Popping from a stack with extra entries prepended at the bottom pops the
same value and keeps the extra entries. -/
theorem popStack_append {α : Type} (pre st : List α) (h : st ≠ []) :
    popStack (pre ++ st) = (popStack st).map (fun p => (p.1, pre ++ p.2)) := by
  unfold popStack
  rw [List.getLast?_append_of_ne_nil pre h]
  cases hg : st.getLast? with
  | none => rfl
  | some a =>
    show some (a, (pre ++ st).dropLast) = some (a, pre ++ st.dropLast)
    rw [List.dropLast_append_of_ne_nil pre h]

/-- The uniform loop never looks below the entries it pops: entries
prepended at the bottom of the stack are carried through untouched. -/
theorem convsLoop_prefix {α : Type} (cat : α → α → α) :
    ∀ (fs : List (α → Option α)) (x : α) (st : List α) (y : α)
      (rest : List α),
      convsLoop fs cat x st = some (y, rest) →
      ∀ pre : List α, convsLoop fs cat x (pre ++ st) = some (y, pre ++ rest) := by
  intro fs
  induction fs with
  | nil =>
    intro x st y rest h pre
    change some (x, st) = some (y, rest) at h
    injection h with h
    rw [show y = x from congrArg Prod.fst h.symm,
      show rest = st from congrArg Prod.snd h.symm]
    rfl
  | cons f fs ih =>
    intro x st y rest h pre
    rw [convsLoop_cons] at h ⊢
    cases hp : popStack st with
    | none => rw [hp] at h; simp at h
    | some p =>
      have hne : st ≠ [] := by
        intro hc
        rw [hc] at hp
        exact Option.noConfusion hp
      rw [popStack_append pre st hne, hp]
      rw [hp] at h
      change (f (cat x p.1)).bind (fun z => convsLoop fs cat z p.2) =
        some (y, rest) at h
      show (f (cat x p.1)).bind (fun z => convsLoop fs cat z (pre ++ p.2)) =
        some (y, pre ++ rest)
      cases hf : f (cat x p.1) with
      | none =>
        rw [hf] at h
        simp at h
      | some z =>
        rw [hf] at h
        change convsLoop fs cat z p.2 = some (y, rest) at h
        show convsLoop fs cat z (pre ++ p.2) = some (y, pre ++ rest)
        exact ih z p.2 y rest h pre

/-- The uniform loop on a stack with position `i` overwritten: as long as
the loop does not reach position `i`, the intermediate values are
identical to the run on the original stack, and the overwrite stays in the
remaining stack. -/
theorem convsLoop_set_prefix {α : Type} (cat : α → α → α) :
    ∀ (fs : List (α → Option α)) (x : α) (u : List α) (i : Nat) (e : α),
      fs.length + i < u.length →
      convsLoop fs cat x (u.set i e) =
        (convsLoop fs cat x u).map (fun p => (p.1, p.2.set i e)) := by
  intro fs
  induction fs with
  | nil => intro x u i e _; rfl
  | cons f fs ih =>
    intro x u i e h
    rw [convsLoop_cons, convsLoop_cons]
    rw [popStack_set u i e (by simp only [List.length_cons] at h; omega)]
    cases hp : popStack u with
    | none => rfl
    | some p =>
      show (f (cat x p.1)).bind _ = ((f (cat x p.1)).bind _).map _
      cases hf : f (cat x p.1) with
      | none => rfl
      | some z =>
        show convsLoop fs cat z (p.2.set i e) =
          (convsLoop fs cat z p.2).map _
        exact ih z p.2 i e
          (by rw [popStack_eq_some u p hp, List.length_dropLast]
              simp only [List.length_cons] at h
              omega)

/-! ## Claim C5 -/

/-- C5 (counterexample): a depth-5 encoder paired with a depth-4 decoder —
a configuration mismatch in which the encoder pushes 11 tensors but the
decoder pops only 10.  With encoder indices `{1, 3, 5, 7}` disabled and
decoder indices `{3, 5, 7, 9}` disabled, every popped tensor is
channel-compatible, so `Decoder.forward` finishes normally (returning a
3-channel output) with the 32-channel bottom entry still on the stack: no
error is raised or reported for the non-drained stack. -/
theorem C5_counterexample :
    (encoderShape 3 5 ⟨1, 3, 256, 256⟩).map (fun p => p.2.map Shape.c) =
      some [32, 64, 64, 128, 128, 256, 256, 512, 512, 512, 512] ∧
    decoderForwardChan 3 4 [3, 5, 7, 9] 512
      (applyDisableL 0 [1, 3, 5, 7]
        [32, 64, 64, 128, 128, 256, 256, 512, 512, 512, 512]) =
      some (3, [32]) := by
  constructor
  · decide
  · decide

/-- C5 (amended): `Decoder.forward` performs no drain check at all — it
never inspects the part of the stack below the entries it pops.  Whenever a
decoder pass succeeds, prepending arbitrary extra entries at the bottom of
the stack yields the same output with the extra entries silently left on
the stack. -/
theorem C5_decoder_ignores_leftover_stack {α : Type} (B : DecBlocks α)
    (x : α) (st : List α) (y : α) (rest : List α)
    (h : decoderForwardG B x st = some (y, rest)) (pre : List α) :
    decoderForwardG B x (pre ++ st) = some (y, pre ++ rest) := by
  rw [decoderForward_flatten] at h ⊢
  cases hE : B.bnEncode x with
  | none =>
    rw [hE] at h
    simp at h
  | some z =>
    rw [hE] at h
    change convsLoop (flattenBlocks B) B.cat z st = some (y, rest) at h
    show convsLoop (flattenBlocks B) B.cat z (pre ++ st) = some (y, pre ++ rest)
    exact convsLoop_prefix B.cat (flattenBlocks B) z st y rest h pre

/-- C5 witness: a drained default-configuration channel-level pass, rerun
with one extra bottom entry, succeeds identically and leaves that entry. -/
theorem C5_decoder_ignores_leftover_stack_witness :
    decoderForwardG (mkDecBlocksChan 3 4 []) 512
      ([99] ++ [32, 64, 64, 128, 128, 256, 256, 512, 512, 512]) =
      some (3, [99] ++ []) :=
  C5_decoder_ignores_leftover_stack (mkDecBlocksChan 3 4 []) 512
    [32, 64, 64, 128, 128, 256, 256, 512, 512, 512] 3 [] (by decide) [99]

/-! ## Claim C3 -/

/-- C3 (amended): effects of disabling one encoder skip index `i`.

1. `Encoder.get_skip_connections` keeps the stack's full length and
   production order, with position `i` replaced by the placeholder and all
   other positions unchanged.
2. For the default configuration (`n = 3`, `depth = 4`, 10 skip positions)
   against the baseline with no disabled indices: translating `i` to the
   decoder's numbering (`9 - i`, as the orchestrator does) changes the
   construction-time input channel count of exactly the one decoder layer
   `9 - i` — the layer that consumes position `i` — strictly reducing it to
   the un-augmented count (the count the fully-disabled decoder uses).
3. The numeric values flowing through the layers executed before the
   consuming layer are unchanged: as long as the uniform pop-concat-conv
   loop has not reached position `i`, its intermediate values on the
   overwritten stack coincide with those on the original stack.  (Values
   from the consuming layer onward change in general — see the
   counterexample.) -/
theorem C3_disabled_skip_connection_effects :
    (∀ (α : Type) (empty : α) (skips : List α) (i : Nat), i < skips.length →
      (applyDisableL empty [i] skips).length = skips.length ∧
      (applyDisableL empty [i] skips)[i]? = some empty ∧
      ∀ j : Nat, j ≠ i →
        (applyDisableL empty [i] skips)[j]? = skips[j]?) ∧
    (∀ i : Nat, i < 10 →
      (decInChansList 3 4 [(9 : Int) - (i : Int)]).length = 10 ∧
      (decInChansList 3 4 []).length = 10 ∧
      (∀ m : Nat, m < 10 → m ≠ 9 - i →
        (decInChansList 3 4 [(9 : Int) - (i : Int)]).getD m 0 =
          (decInChansList 3 4 []).getD m 0) ∧
      (decInChansList 3 4 [(9 : Int) - (i : Int)]).getD (9 - i) 0 <
        (decInChansList 3 4 []).getD (9 - i) 0 ∧
      (decInChansList 3 4 [(9 : Int) - (i : Int)]).getD (9 - i) 0 =
        (decInChansList 3 4 [0, 1, 2, 3, 4, 5, 6, 7, 8, 9]).getD (9 - i) 0) ∧
    (∀ (α : Type) (fs : List (α → Option α)) (cat : α → α → α) (x : α)
      (u : List α) (i : Nat) (e : α),
      fs.length + i < u.length →
      convsLoop fs cat x (applyDisableL e [i] u) =
        (convsLoop fs cat x u).map (fun p => (p.1, p.2.set i e))) := by
  refine ⟨?_, ?_, ?_⟩
  · intro α empty skips i hi
    show (skips.set i empty).length = skips.length ∧
      (skips.set i empty)[i]? = some empty ∧
      ∀ j : Nat, j ≠ i → (skips.set i empty)[j]? = skips[j]?
    refine ⟨List.length_set skips i empty, ?_, ?_⟩
    · exact List.getElem?_set_self hi
    · intro j hj
      exact List.getElem?_set_ne (Ne.symm hj)
  · decide
  · intro α fs cat x u i e h
    show convsLoop fs cat x (u.set i e) = _
    exact convsLoop_set_prefix cat fs x u i e h

/-- C3 witness: part 1 at `skips = [5, 6, 7]`, `i = 1`; part 2 at `i = 3`
(decoder layer 6, the `conv2` of the second double-conv stage, drops from
256 to 128 input channels, all other layers unchanged); part 3 at a
one-layer loop not reaching the overwritten position 0 of `[1, 2, 3]`. -/
theorem C3_disabled_skip_connection_effects_witness :
    ((applyDisableL 0 [1] [5, 6, 7]).length = 3 ∧
      (applyDisableL 0 [1] [5, 6, 7])[1]? = some 0 ∧
      ∀ j : Nat, j ≠ 1 →
        (applyDisableL 0 [1] [5, 6, 7])[j]? = ([5, 6, 7] : List Nat)[j]?) ∧
    ((∀ m : Nat, m < 10 → m ≠ 6 →
        (decInChansList 3 4 [(6 : Int)]).getD m 0 =
          (decInChansList 3 4 []).getD m 0) ∧
      (decInChansList 3 4 [(6 : Int)]).getD 6 0 <
        (decInChansList 3 4 []).getD 6 0) ∧
    convsLoop [(some : Nat → Option Nat)] (· + ·) 0
        (applyDisableL 9 [0] [1, 2, 3]) =
      (convsLoop [(some : Nat → Option Nat)] (· + ·) 0 [1, 2, 3]).map
        (fun p => (p.1, p.2.set 0 9)) := by
  refine ⟨?_, ?_, ?_⟩
  · exact C3_disabled_skip_connection_effects.1 Nat 0 [5, 6, 7] 1 (by decide)
  · refine ⟨?_, ?_⟩
    · intro m hm hm6
      have h := ((C3_disabled_skip_connection_effects.2.1 3 (by decide)).2.2.1
        m hm (by omega))
      simpa using h
    · have h := (C3_disabled_skip_connection_effects.2.1 3 (by decide)).2.2.2.1
      simpa using h
  · exact C3_disabled_skip_connection_effects.2.2 Nat [some] (· + ·) 0
      [1, 2, 3] 0 9 (by decide)

/-- C3 (counterexample): the claim's "numeric values flowing through every
other layer are unchanged" is false.  In the value instantiation of the
default decoder (every block a realizable all-one-weights convolution
collapsing its input to one channel), disabling encoder position 9 — the
position consumed by the first decoder layer (`initial_conv`) — changes the
value carried through every subsequent layer: the final output (produced by
the `Output` layer, a layer other than the consuming one) is `[45]` instead
of `[55]`. -/
theorem C3_counterexample :
    decoderForwardVal 3 4 [0]
        ((List.range 10).map (fun j => [(j : Int) + 1])) = some ([55], []) ∧
    decoderForwardVal 3 4 [0]
        (applyDisableL [] [9] ((List.range 10).map (fun j => [(j : Int) + 1]))) =
      some ([45], []) ∧
    ([55] : List Int) ≠ [45] := by
  refine ⟨by decide, by decide, by decide⟩
